import Mathlib

/-!
Verification of the RAG MCQ agent core (retrieval ranking, answer parsing,
chunking, embeddings cache) against its natural-language specification.

Numeric model: Python floats are modelled as exact rationals (ℚ).  The
floating-point square root used by `np.linalg.norm` is modelled as an
explicit function parameter `sq : ℚ → ℚ`; theorems that depend on its
defining property (`sq x * sq x = x` at the points actually used) take that
property as a hypothesis, which concrete witnesses discharge with perfect
squares.  Text is modelled as `List Char`.
-/

/-- `np.dot` on two equal-length vectors (`src/agent/retriever.py`). -/
def dot (v w : List ℚ) : ℚ := (List.zipWith (· * ·) v w).sum

/-- `Retriever._cosine_similarity` (`src/agent/retriever.py` lines 64-82):
`dot / (norm1 * norm2)`, returning exactly `0.0` when either norm is zero.
`sq` models the floating-point square root, so `sq (dot v v)` is
`np.linalg.norm(v)`. -/
def cosine_similarity (sq : ℚ → ℚ) (vec1 vec2 : List ℚ) : ℚ :=
  let norm1 := sq (dot vec1 vec1)
  let norm2 := sq (dot vec2 vec2)
  if norm1 = 0 ∨ norm2 = 0 then 0 else dot vec1 vec2 / (norm1 * norm2)

/-- The vectorized similarity computation of `Retriever._find_top_k`
(`src/agent/retriever.py` lines 95-103):
`np.where(denominators > 0, dot_products / denominators, 0.0)`. -/
def similarities (sq : ℚ → ℚ) (embeddings : List (List ℚ)) (q : List ℚ) : List ℚ :=
  embeddings.map fun e =>
    let denom := sq (dot q q) * sq (dot e e)
    if 0 < denom then dot e q / denom else 0

/-- `Retriever._find_top_k` (`src/agent/retriever.py` lines 84-110):
`np.argsort(similarities)[::-1][:top_k]` then pair each index with its
score.  `argsort` is modelled as a merge sort of the index range by
ascending similarity (ties are broken arbitrarily in the source as well). -/
def find_top_k (sq : ℚ → ℚ) (embeddings : List (List ℚ)) (q : List ℚ) (k : ℕ) :
    List (ℕ × ℚ) :=
  let sims := similarities sq embeddings q
  let order := (List.range embeddings.length).mergeSort
    fun i j => decide (sims.getD i 0 ≤ sims.getD j 0)
  (order.reverse.take k).map fun i => (i, sims.getD i 0)

/-- The `top_k` handling of `Retriever.retrieve_relevant_chunks`
(`src/agent/retriever.py` lines 127-135): `top_k <= 0` returns `[]`,
otherwise `_find_top_k` is called with `min(top_k, len(self.chunks))`. -/
def retrieve_top_k (sq : ℚ → ℚ) (embeddings : List (List ℚ)) (q : List ℚ) (k : ℤ) :
    List (ℕ × ℚ) :=
  if k ≤ 0 then [] else find_top_k sq embeddings q (min k.toNat embeddings.length)

/-- Concrete model of the float square root used by witnesses: exact on the
perfect squares that appear in the witness inputs. -/
def sqrtW : ℚ → ℚ := fun x => if x = 25 then 5 else 0

/-- C2: cosine similarity returns exactly `0` whenever either vector has zero
norm, and the cosine similarity of a vector with non-zero norm with itself is
exactly `1` (given that `sq` is a genuine square root of `dot v v`). -/
theorem cosine_similarity_zero_guard_and_self (sq : ℚ → ℚ) (v w : List ℚ)
    (hsq : sq (dot v v) * sq (dot v v) = dot v v) :
    (sq (dot v v) = 0 ∨ sq (dot w w) = 0 → cosine_similarity sq v w = 0) ∧
    (dot v v ≠ 0 → cosine_similarity sq v v = 1) := by
  constructor
  · intro h
    simp only [cosine_similarity]
    rw [if_pos h]
  · intro hv
    have hs : sq (dot v v) ≠ 0 := by
      intro h0
      exact hv (by rw [← hsq, h0, zero_mul])
    simp only [cosine_similarity]
    rw [if_neg (by tauto), hsq]
    exact div_self hv

/-- Witness for C2 at concrete inputs `v = [3,4]` (norm 5) and `w = [0]`. -/
theorem cosine_similarity_zero_guard_and_self_witness :
    cosine_similarity sqrtW [(3 : ℚ), 4] [0] = 0 ∧
    cosine_similarity sqrtW [(3 : ℚ), 4] [(3 : ℚ), 4] = 1 := by
  have h := cosine_similarity_zero_guard_and_self sqrtW [(3 : ℚ), 4] [0]
    (by norm_num [sqrtW, dot])
  exact ⟨h.1 (Or.inr (by norm_num [sqrtW, dot])), h.2 (by norm_num [dot])⟩

/-- The ranked output of `_find_top_k` is sorted by non-increasing score. -/
lemma find_top_k_sorted (sq : ℚ → ℚ) (embeddings : List (List ℚ)) (q : List ℚ) (k : ℕ) :
    List.Sorted (fun a b : ℚ => b ≤ a) ((find_top_k sq embeddings q k).map Prod.snd) := by
  simp only [find_top_k]
  have hsorted := @List.sorted_mergeSort ℕ
    (fun i j => decide ((similarities sq embeddings q).getD i 0 ≤
      (similarities sq embeddings q).getD j 0))
    (by intro a b c hab hbc; simp only [decide_eq_true_eq] at *; exact le_trans hab hbc)
    (by intro a b; simpa using le_total _ _)
    (List.range embeddings.length)
  have h1 := List.pairwise_reverse.mpr hsorted
  have h2 := h1.sublist (List.take_sublist k _)
  rw [List.Sorted, List.map_map, List.pairwise_map]
  refine h2.imp ?_
  intro a b hab
  simpa using hab

/-- C1: for every query vector, corpus and integer `k`, the ranking operation
returns `min k corpus_size` index/score pairs when `k > 0`, sorted by
non-increasing similarity score, and the empty sequence when `k ≤ 0`. -/
theorem retrieve_top_k_spec (sq : ℚ → ℚ) (embeddings : List (List ℚ)) (q : List ℚ) (k : ℤ) :
    (k ≤ 0 → retrieve_top_k sq embeddings q k = []) ∧
    (0 < k → (retrieve_top_k sq embeddings q k).length = min k.toNat embeddings.length) ∧
    List.Sorted (fun a b : ℚ => b ≤ a) ((retrieve_top_k sq embeddings q k).map Prod.snd) := by
  refine ⟨fun hk => by simp [retrieve_top_k, hk], fun hk => ?_, ?_⟩
  · rw [retrieve_top_k, if_neg (by omega)]
    simp only [find_top_k, List.length_map, List.length_take, List.length_reverse,
      List.length_mergeSort, List.length_range]
    omega
  · by_cases hk : k ≤ 0
    · simp [retrieve_top_k, hk, List.Sorted]
    · rw [retrieve_top_k, if_neg hk]
      exact find_top_k_sorted sq embeddings q _

/-- Witness for C1 at a two-chunk corpus with `k = -3` and `k = 5`. -/
theorem retrieve_top_k_spec_witness :
    retrieve_top_k sqrtW [[(1 : ℚ)], [2]] [1] (-3) = [] ∧
    (retrieve_top_k sqrtW [[(1 : ℚ)], [2]] [1] 5).length = 2 := by
  constructor
  · exact (retrieve_top_k_spec sqrtW [[(1 : ℚ)], [2]] [1] (-3)).1 (by decide)
  · have h := (retrieve_top_k_spec sqrtW [[(1 : ℚ)], [2]] [1] 5).2.1 (by decide)
    simpa using h

/-! ### Answer parser (`src/agent/utils/answer_parser.py`)

The five `COT_PATTERNS` regexes, the standalone-letter and standalone-digit
searches and the substring fallback are embedded as character-level matchers
over `List Char`.  Every quantifier in the source regexes (`\s+`, `[,\s]+`,
`[:\s]+`, `\s*`) is followed by a character disjoint from the repeated class,
so greedy maximal munch is equivalent to backtracking semantics, and
`re.search` is leftmost search over start positions. -/

/-- Python `\s` (ASCII): the six whitespace characters. -/
def isSpaceChar (c : Char) : Bool :=
  c = ' ' || c = '\t' || c = '\n' || c = '\r' || c = '\x0b' || c = '\x0c'

/-- Python `\w` (ASCII): letters, digits, underscore. -/
def isWordChar (c : Char) : Bool := c.isAlpha || c.isDigit || c = '_'

/-- The character class `[A-D]` under `re.IGNORECASE`. -/
def isLetterAD (c : Char) : Bool :=
  (65 ≤ c.toNat && c.toNat ≤ 68) || (97 ≤ c.toNat && c.toNat ≤ 100)

/-- The character class `[0-3]`. -/
def isDigit03 (c : Char) : Bool := 48 ≤ c.toNat && c.toNat ≤ 51

/-- `ord(c.upper())` for a single character. -/
def upperOrd (c : Char) : ℕ := if 97 ≤ c.toNat ∧ c.toNat ≤ 122 then c.toNat - 32 else c.toNat

/-- `ord(c.lower())` for a single character. -/
def lowerOrd (c : Char) : ℕ := if 65 ≤ c.toNat ∧ c.toNat ≤ 90 then c.toNat + 32 else c.toNat

/-- `ord(letter.upper()) - ord('A')`, the positional letter-to-index map. -/
def letterIdx (c : Char) : ℤ := (upperOrd c : ℤ) - 65

/-- String literal to character list. -/
def chars (s : String) : List Char := s.data

/-- Match a literal (given lowercase) case-insensitively, returning the rest. -/
def litCI : List Char → List Char → Option (List Char)
  | [], input => some input
  | _ :: _, [] => none
  | p :: ps, c :: cs => if lowerOrd c = lowerOrd p then litCI ps cs else none

/-- One-or-more repetition of a character class, maximal munch. -/
def repPlus (p : Char → Bool) : List Char → Option (List Char)
  | [] => none
  | c :: cs => if p c then some (cs.dropWhile p) else none

/-- The capturing group: a single character of class `p`. -/
def capture (p : Char → Bool) : List Char → Option Char
  | [] => none
  | c :: _ => if p c then some c else none

/-- The class `[,\s]`. -/
def isCommaSpace (c : Char) : Bool := c = ',' || isSpaceChar c

/-- The class `[:\s]`. -/
def isColonSpace (c : Char) : Bool := c = ':' || isSpaceChar c

/-- `[Tt]herefore[,\s]+the\s+answer\s+is\s+([A-D])` at a fixed start. -/
def matchP1 (l : List Char) : Option Char :=
  (litCI (chars "therefore") l).bind fun r =>
  (repPlus isCommaSpace r).bind fun r =>
  (litCI (chars "the") r).bind fun r =>
  (repPlus isSpaceChar r).bind fun r =>
  (litCI (chars "answer") r).bind fun r =>
  (repPlus isSpaceChar r).bind fun r =>
  (litCI (chars "is") r).bind fun r =>
  (repPlus isSpaceChar r).bind fun r =>
  capture isLetterAD r

/-- `[Aa]nswer:\s*([A-D])` at a fixed start. -/
def matchP2 (l : List Char) : Option Char :=
  (litCI (chars "answer:") l).bind fun r => capture isLetterAD (r.dropWhile isSpaceChar)

/-- `[Cc]onclusion[:\s]+([A-D])` at a fixed start. -/
def matchP3 (l : List Char) : Option Char :=
  (litCI (chars "conclusion") l).bind fun r =>
  (repPlus isColonSpace r).bind fun r => capture isLetterAD r

/-- `[Tt]he\s+correct\s+answer\s+is\s+([A-D])` at a fixed start. -/
def matchP4 (l : List Char) : Option Char :=
  (litCI (chars "the") l).bind fun r =>
  (repPlus isSpaceChar r).bind fun r =>
  (litCI (chars "correct") r).bind fun r =>
  (repPlus isSpaceChar r).bind fun r =>
  (litCI (chars "answer") r).bind fun r =>
  (repPlus isSpaceChar r).bind fun r =>
  (litCI (chars "is") r).bind fun r =>
  (repPlus isSpaceChar r).bind fun r =>
  capture isLetterAD r

/-- `[Aa]nswer\s+is\s+([A-D])` at a fixed start. -/
def matchP5 (l : List Char) : Option Char :=
  (litCI (chars "answer") l).bind fun r =>
  (repPlus isSpaceChar r).bind fun r =>
  (litCI (chars "is") r).bind fun r =>
  (repPlus isSpaceChar r).bind fun r =>
  capture isLetterAD r

/-- `re.search`: try the matcher at each start position, leftmost first. -/
def searchPat (m : List Char → Option Char) : List Char → Option Char
  | [] => m []
  | c :: rest =>
    match m (c :: rest) with
    | some x => some x
    | none => searchPat m rest

/-- Strategy 1 of `AnswerParser.extract_answer`: the five `COT_PATTERNS`
tried in order, returning the captured letter of the first that matches. -/
def cotExtract (resp : List Char) : Option Char :=
  match searchPat matchP1 resp with
  | some c => some c
  | none =>
    match searchPat matchP2 resp with
    | some c => some c
    | none =>
      match searchPat matchP3 resp with
      | some c => some c
      | none =>
        match searchPat matchP4 resp with
        | some c => some c
        | none => searchPat matchP5 resp

/-- `\b` holds before the current character (previous char, if any, non-word). -/
def boundaryBefore : Option Char → Bool
  | none => true
  | some d => !isWordChar d

/-- `\b` holds after the current character (next char, if any, non-word). -/
def boundaryAfter : List Char → Bool
  | [] => true
  | d :: _ => !isWordChar d

/-- Scan for `\b(class)\b`, tracking the previous character. -/
def standaloneAux (p : Char → Bool) : Option Char → List Char → Option Char
  | _, [] => none
  | prev, c :: rest =>
    if p c && boundaryBefore prev && boundaryAfter rest then some c
    else standaloneAux p (some c) rest

/-- `re.search(r'\b(class)\b', ...)`: leftmost word-boundary-delimited char. -/
def findStandalone (p : Char → Bool) (l : List Char) : Option Char := standaloneAux p none l

/-- Case-insensitive list-prefix test (`needle.lower()` vs `hay.lower()`). -/
def startsWithCI : List Char → List Char → Bool
  | [], _ => true
  | _ :: _, [] => false
  | a :: as, b :: bs => (lowerOrd a == lowerOrd b) && startsWithCI as bs

/-- `needle.lower() in hay.lower()` (Python substring containment). -/
def containsCI (needle : List Char) : List Char → Bool
  | [] => startsWithCI needle []
  | c :: rest => startsWithCI needle (c :: rest) || containsCI needle rest

/-- Strategy 4: first choice whose lowercased text occurs in the response. -/
def findChoice (resp : List Char) : List (List Char) → ℕ → Option ℕ
  | [], _ => none
  | ch :: rest, i => if containsCI ch resp then some i else findChoice resp rest (i + 1)

/-- `AnswerParser.extract_answer` (`src/agent/utils/answer_parser.py`
lines 19-59): blank guard, then the four strategies in order. -/
def extract_answer (resp : List Char) (answer_choices : List (List Char)) : ℤ :=
  if resp.all isSpaceChar then -1
  else
    match cotExtract resp with
    | some c => letterIdx c
    | none =>
      match findStandalone isLetterAD resp with
      | some c => letterIdx c
      | none =>
        match findStandalone isDigit03 resp with
        | some c => (c.toNat : ℤ) - 48
        | none =>
          match findChoice resp answer_choices 0 with
          | some i => (i : ℤ)
          | none => -1

lemma capture_prop {p : Char → Bool} : ∀ {l : List Char} {c : Char},
    capture p l = some c → p c = true
  | [], c, h => by simp [capture] at h
  | a :: t, c, h => by
    by_cases hp : p a
    · simp only [capture, if_pos hp, Option.some.injEq] at h
      exact h ▸ hp
    · simp [capture, hp] at h

lemma searchPat_prop {m : List Char → Option Char} {p : Char → Bool}
    (hm : ∀ l c, m l = some c → p c = true) :
    ∀ (l : List Char) {c : Char}, searchPat m l = some c → p c = true
  | [], c, h => hm [] c h
  | a :: t, c, h => by
    rw [searchPat] at h
    cases hx : m (a :: t) with
    | some x =>
      rw [hx] at h
      exact hm _ _ (hx.trans h)
    | none =>
      rw [hx] at h
      exact searchPat_prop hm t h

lemma matchP1_letter : ∀ l c, matchP1 l = some c → isLetterAD c = true := by
  intro l c h
  simp only [matchP1, Option.bind_eq_some] at h
  obtain ⟨r1, -, r2, -, r3, -, r4, -, r5, -, r6, -, r7, -, r8, -, hc⟩ := h
  exact capture_prop hc

lemma matchP2_letter : ∀ l c, matchP2 l = some c → isLetterAD c = true := by
  intro l c h
  simp only [matchP2, Option.bind_eq_some] at h
  obtain ⟨r1, -, hc⟩ := h
  exact capture_prop hc

lemma matchP3_letter : ∀ l c, matchP3 l = some c → isLetterAD c = true := by
  intro l c h
  simp only [matchP3, Option.bind_eq_some] at h
  obtain ⟨r1, -, r2, -, hc⟩ := h
  exact capture_prop hc

lemma matchP4_letter : ∀ l c, matchP4 l = some c → isLetterAD c = true := by
  intro l c h
  simp only [matchP4, Option.bind_eq_some] at h
  obtain ⟨r1, -, r2, -, r3, -, r4, -, r5, -, r6, -, r7, -, r8, -, hc⟩ := h
  exact capture_prop hc

lemma matchP5_letter : ∀ l c, matchP5 l = some c → isLetterAD c = true := by
  intro l c h
  simp only [matchP5, Option.bind_eq_some] at h
  obtain ⟨r1, -, r2, -, r3, -, r4, -, hc⟩ := h
  exact capture_prop hc

lemma cotExtract_letter {resp : List Char} {c : Char} (h : cotExtract resp = some c) :
    isLetterAD c = true := by
  rw [cotExtract] at h
  cases h1 : searchPat matchP1 resp with
  | some x => rw [h1] at h; exact searchPat_prop matchP1_letter resp (h1.trans h)
  | none =>
    rw [h1] at h
    cases h2 : searchPat matchP2 resp with
    | some x => rw [h2] at h; exact searchPat_prop matchP2_letter resp (h2.trans h)
    | none =>
      rw [h2] at h
      cases h3 : searchPat matchP3 resp with
      | some x => rw [h3] at h; exact searchPat_prop matchP3_letter resp (h3.trans h)
      | none =>
        rw [h3] at h
        cases h4 : searchPat matchP4 resp with
        | some x => rw [h4] at h; exact searchPat_prop matchP4_letter resp (h4.trans h)
        | none =>
          rw [h4] at h
          exact searchPat_prop matchP5_letter resp h

lemma standaloneAux_prop {p : Char → Bool} : ∀ (prev : Option Char) (l : List Char) {c : Char},
    standaloneAux p prev l = some c → p c = true
  | prev, [], c, h => by simp [standaloneAux] at h
  | prev, a :: t, c, h => by
    by_cases hc : (p a && boundaryBefore prev && boundaryAfter t : Bool)
    · rw [standaloneAux, if_pos hc] at h
      cases h
      simp only [Bool.and_eq_true] at hc
      exact hc.1.1
    · rw [standaloneAux, if_neg hc] at h
      exact standaloneAux_prop (some a) t h

lemma findChoice_lt (resp : List Char) : ∀ (cs : List (List Char)) (i : ℕ) {j : ℕ},
    findChoice resp cs i = some j → j < i + cs.length
  | [], i, j, h => by simp [findChoice] at h
  | ch :: rest, i, j, h => by
    by_cases hc : containsCI ch resp
    · rw [findChoice, if_pos hc] at h
      cases h
      simp
    · rw [findChoice, if_neg hc] at h
      have := findChoice_lt resp rest (i + 1) h
      simp only [List.length_cons]
      omega

lemma letterIdx_range {c : Char} (h : isLetterAD c = true) :
    0 ≤ letterIdx c ∧ letterIdx c < 4 := by
  simp only [isLetterAD, Bool.or_eq_true, Bool.and_eq_true, decide_eq_true_eq] at h
  simp only [letterIdx, upperOrd]
  split_ifs <;> omega

/-- C3 (amended): with at most four choices, `extract_answer` returns the
sentinel `-1` or an integer in `[0, 4)` (an index into the A-D letter space,
not necessarily into `choices` when fewer than four are supplied). -/
theorem extract_answer_index_range (resp : List Char) (answer_choices : List (List Char))
    (h4 : answer_choices.length ≤ 4) :
    extract_answer resp answer_choices = -1 ∨
      (0 ≤ extract_answer resp answer_choices ∧ extract_answer resp answer_choices < 4) := by
  by_cases hsp : resp.all isSpaceChar
  · left; simp [extract_answer, hsp]
  · rw [extract_answer, if_neg hsp]
    cases hcot : cotExtract resp with
    | some c => exact Or.inr (letterIdx_range (cotExtract_letter hcot))
    | none =>
      cases hsl : findStandalone isLetterAD resp with
      | some c => exact Or.inr (letterIdx_range (standaloneAux_prop none resp hsl))
      | none =>
        cases hsd : findStandalone isDigit03 resp with
        | some c =>
          right
          have hd := standaloneAux_prop none resp hsd
          simp only [isDigit03, Bool.and_eq_true, decide_eq_true_eq] at hd
          show (0 : ℤ) ≤ (c.toNat : ℤ) - 48 ∧ (c.toNat : ℤ) - 48 < 4
          omega
        | none =>
          cases hfc : findChoice resp answer_choices 0 with
          | some i =>
            right
            have hi := findChoice_lt resp answer_choices 0 hfc
            show (0 : ℤ) ≤ (i : ℤ) ∧ (i : ℤ) < 4
            omega
          | none => exact Or.inl rfl

/-- C3 counterexample: with two choices (the validator's minimum) and the
response "The answer is D", `extract_answer` returns `3`, which is neither
the sentinel `-1` nor an index into the two-element choice list. -/
theorem extract_answer_index_range_counterexample :
    ¬(extract_answer (chars "The answer is D") [chars "x", chars "y"] = -1 ∨
      (0 ≤ extract_answer (chars "The answer is D") [chars "x", chars "y"] ∧
        extract_answer (chars "The answer is D") [chars "x", chars "y"] <
          (([chars "x", chars "y"] : List (List Char)).length : ℤ))) := by
  decide

/-- Witness for C3 (amended) at the same concrete input: the result `3` lies
in `[0, 4)`. -/
theorem extract_answer_index_range_witness :
    extract_answer (chars "The answer is D") [chars "x", chars "y"] = -1 ∨
      (0 ≤ extract_answer (chars "The answer is D") [chars "x", chars "y"] ∧
        extract_answer (chars "The answer is D") [chars "x", chars "y"] < 4) :=
  extract_answer_index_range (chars "The answer is D") [chars "x", chars "y"] (by decide)

/-- C4: the four concrete answer-extraction scenarios of the specification,
computed on the embedded cascade. -/
theorem extract_answer_scenarios :
    extract_answer (chars "Therefore, the answer is B.")
      [chars "x", chars "y", chars "z", chars "w"] = 1 ∧
    extract_answer (chars "I think it" ++ [Char.ofNat 39] ++ chars "s 2")
      [chars "first option", chars "second option", chars "third option",
        chars "fourth option"] = 2 ∧
    extract_answer (chars "The mitochondria is the answer")
      [chars "the mitochondria", chars "the nucleus", chars "the ribosome",
        chars "the golgi"] = 0 ∧
    extract_answer (chars "I cannot determine this")
      [chars "first option", chars "second option", chars "third option",
        chars "fourth option"] = -1 := by
  refine ⟨by decide, by decide, by decide, by decide⟩

/-- C10: a response that is empty or consists only of whitespace yields the
sentinel `-1` for every choice list (the guard fires before any strategy). -/
theorem extract_answer_blank (resp : List Char) (answer_choices : List (List Char))
    (h : resp.all isSpaceChar = true) : extract_answer resp answer_choices = -1 := by
  simp [extract_answer, h]

/-- Witness for C10 at the empty response and a whitespace-only response. -/
theorem extract_answer_blank_witness :
    extract_answer [] [chars "alpha"] = -1 ∧
    extract_answer (chars "  ") [chars "alpha"] = -1 :=
  ⟨extract_answer_blank [] [chars "alpha"] (by decide),
    extract_answer_blank (chars "  ") [chars "alpha"] (by decide)⟩

/-! ### Chunker (`src/agent/textbook_processor.py`)

`TextbookProcessor.chunk_textbook` is embedded as a fold over paragraphs of
an explicit state (Python locals `chunks`, `current_chunk`, `current_start`,
`chunk_index`), with the sentence and word fallback loops as inner folds.
The model was validated against the source semantics on concrete inputs
exercising the paragraph, sentence and word paths, including the overlap
seeding and the finalize-after-paragraph check. -/

structure Chunk where
  text : List Char
  start_char : ℕ
  end_char : ℕ
  chunk_index : ℕ
deriving DecidableEq

structure CState where
  chunks : List Chunk
  current_chunk : List Char
  current_start : ℕ
  chunk_index : ℕ

def strip (s : List Char) : List Char :=
  ((s.dropWhile isSpaceChar).reverse.dropWhile isSpaceChar).reverse

def splitOnNN : List Char → List (List Char)
  | [] => [[]]
  | '\n' :: '\n' :: rest => [] :: splitOnNN rest
  | c :: rest =>
    match splitOnNN rest with
    | [] => [[c]]
    | h :: t => (c :: h) :: t

def isPunctSent (c : Char) : Bool := c = '.' || c = '!' || c = '?'

def splitSentencesAux : ℕ → List Char → List (List Char)
  | _, [] => [[]]
  | 0, l => [l]
  | fuel + 1, c :: rest =>
    if isPunctSent c ∧ (rest.takeWhile isSpaceChar) ≠ [] then
      [] :: (c :: rest.takeWhile isSpaceChar) ::
        splitSentencesAux fuel (rest.dropWhile isSpaceChar)
    else
      match splitSentencesAux fuel rest with
      | [] => [[c]]
      | h :: t => (c :: h) :: t

def splitSentences (l : List Char) : List (List Char) := splitSentencesAux l.length l

def pairUp : List (List Char) → List (List Char)
  | t :: s :: rest => (t ++ s) :: pairUp rest
  | _ => []

def splitWordsAux : List Char → List Char → List (List Char)
  | [], acc => if acc.isEmpty then [] else [acc.reverse]
  | c :: rest, acc =>
    if isSpaceChar c then
      if acc.isEmpty then splitWordsAux rest [] else acc.reverse :: splitWordsAux rest []
    else splitWordsAux rest (c :: acc)

def splitWords (l : List Char) : List (List Char) := splitWordsAux l []

def mkChunk (st : CState) : Chunk :=
  ⟨st.current_chunk, st.current_start, st.current_start + st.current_chunk.length, st.chunk_index⟩

def closeChunk (oc : ℕ) (st : CState) : CState :=
  let ostart := st.current_chunk.length - oc
  { chunks := st.chunks ++ [mkChunk st]
    current_chunk := st.current_chunk.drop ostart
    current_start := st.current_start + ostart
    chunk_index := st.chunk_index + 1 }

def stepWord (csize oc : ℕ) (st : CState) (word : List Char) : CState :=
  if st.current_chunk.length + word.length + 1 ≤ csize then
    { st with current_chunk :=
        if st.current_chunk.isEmpty then word else st.current_chunk ++ [' '] ++ word }
  else if !st.current_chunk.isEmpty then
    let st1 := closeChunk oc st
    { st1 with current_chunk :=
        if st1.current_chunk.isEmpty then word else st1.current_chunk ++ [' '] ++ word }
  else { st with current_chunk := word }

def stepSent (csize oc : ℕ) (st : CState) (sentRaw : List Char) : CState :=
  let sent := strip sentRaw
  if sent.isEmpty then st
  else if st.current_chunk.length + sent.length + 1 ≤ csize then
    { st with current_chunk :=
        if st.current_chunk.isEmpty then sent else st.current_chunk ++ [' '] ++ sent }
  else if !st.current_chunk.isEmpty then
    let st1 := closeChunk oc st
    { st1 with current_chunk :=
        if st1.current_chunk.isEmpty then sent else st1.current_chunk ++ [' '] ++ sent }
  else (splitWords sent).foldl (stepWord csize oc) st

def stepPara (csize oc : ℕ) (st : CState) (paraRaw : List Char) : CState :=
  let para := strip paraRaw
  if para.isEmpty then st
  else if st.current_chunk.length + para.length + 2 ≤ csize then
    { st with current_chunk :=
        if st.current_chunk.isEmpty then para
        else st.current_chunk ++ chars "\n\n" ++ para }
  else
    let st1 :=
      if !st.current_chunk.isEmpty then
        let stc := closeChunk oc st
        { stc with current_chunk :=
            if stc.current_chunk.isEmpty then para
            else stc.current_chunk ++ chars "\n\n" ++ para }
      else (pairUp (splitSentences para)).foldl (stepSent csize oc) st
    if csize ≤ st1.current_chunk.length then closeChunk oc st1
    else st1

def chunk_textbook (text : List Char) (chunk_size overlap : ℕ) : List Chunk :=
  let csize := chunk_size * 4
  let oc := overlap * 4
  let st := (splitOnNN text).foldl (stepPara csize oc) ⟨[], [], 0, 0⟩
  if !st.current_chunk.isEmpty then st.chunks ++ [mkChunk st] else st.chunks


def ChunksWF (st : CState) : Prop :=
  st.chunk_index = st.chunks.length ∧
  st.chunks.map Chunk.chunk_index = List.range st.chunks.length

lemma wf_append {st : CState} (h : ChunksWF st) :
    (st.chunks ++ [mkChunk st]).map Chunk.chunk_index =
      List.range (st.chunks ++ [mkChunk st]).length := by
  rw [List.map_append, h.2, List.length_append]
  simp [mkChunk, h.1, List.range_succ]

lemma wf_closeChunk (oc : ℕ) {st : CState} (h : ChunksWF st) : ChunksWF (closeChunk oc st) :=
  ⟨by simp [closeChunk, mkChunk, h.1], wf_append h⟩

lemma wf_foldl {α : Type} {f : CState → α → CState}
    (hf : ∀ (st : CState) (a : α), ChunksWF st → ChunksWF (f st a)) :
    ∀ (l : List α) (st : CState), ChunksWF st → ChunksWF (l.foldl f st)
  | [], _, h => h
  | a :: t, st, h => wf_foldl hf t (f st a) (hf st a h)

lemma wf_stepWord (csize oc : ℕ) {st : CState} (w : List Char) (h : ChunksWF st) :
    ChunksWF (stepWord csize oc st w) := by
  simp only [stepWord]
  split_ifs <;>
    first
      | exact h
      | exact wf_closeChunk oc h

lemma wf_stepSent (csize oc : ℕ) {st : CState} (s : List Char) (h : ChunksWF st) :
    ChunksWF (stepSent csize oc st s) := by
  simp only [stepSent]
  split_ifs <;>
    first
      | exact h
      | exact wf_closeChunk oc h
      | exact wf_foldl (fun st a ha => wf_stepWord csize oc a ha) _ st h

lemma wf_stepPara (csize oc : ℕ) {st : CState} (p : List Char) (h : ChunksWF st) :
    ChunksWF (stepPara csize oc st p) := by
  simp only [stepPara]
  split_ifs <;>
    first
      | exact h
      | exact wf_closeChunk oc h
      | exact wf_closeChunk oc (wf_closeChunk oc h)
      | exact wf_foldl (fun st a ha => wf_stepSent csize oc a ha) _ st h
      | exact wf_closeChunk oc (wf_foldl (fun st a ha => wf_stepSent csize oc a ha) _ st h)

/-- C5: for every input text (and any chunk size and overlap), the emitted
chunks carry `chunk_index` values `0, 1, 2, ...` in order: the i-th emitted
chunk has `chunk_index = i`. -/
theorem chunk_textbook_chunk_index (text : List Char) (chunk_size overlap : ℕ) :
    (chunk_textbook text chunk_size overlap).map Chunk.chunk_index =
      List.range (chunk_textbook text chunk_size overlap).length := by
  simp only [chunk_textbook]
  have h0 : ChunksWF ⟨[], [], 0, 0⟩ := ⟨rfl, rfl⟩
  have h := wf_foldl (fun st a ha => wf_stepPara (chunk_size * 4) (overlap * 4) a ha)
    (splitOnNN text) _ h0
  split_ifs
  · exact wf_append h
  · exact h.2

/-- The error raised by `TextbookProcessor.load_textbook` on empty input
(the spec's `EmptyInputError`; a `ValueError` with message "Textbook file is
empty" in the source). -/
inductive LoadErr
  | emptyInput
deriving DecidableEq

def collapseNewlinesAux : ℕ → List Char → List Char
  | _, [] => []
  | 0, l => l
  | fuel + 1, c :: rest =>
    if c = '\n' ∧ 2 ≤ (rest.takeWhile (· == '\n')).length then
      '\n' :: '\n' :: collapseNewlinesAux fuel (rest.dropWhile (· == '\n'))
    else c :: collapseNewlinesAux fuel rest

def collapseNewlines (l : List Char) : List Char := collapseNewlinesAux l.length l

def load_textbook (content : List Char) : Except LoadErr (List Char) :=
  if content.all isSpaceChar then Except.error LoadErr.emptyInput
  else Except.ok (strip (collapseNewlines content))

def chunk_pipeline (content : List Char) (chunk_size overlap : ℕ) :
    Except LoadErr (List Chunk) :=
  (load_textbook content).map fun t => chunk_textbook t chunk_size overlap


/-- C6: chunking an empty or whitespace-only input through the pipeline
(`load_textbook` then `chunk_textbook`, as `TextbookProcessor.process` runs
them) fails with the empty-input error instead of returning a chunk list. -/
theorem chunk_pipeline_empty_input (content : List Char) (chunk_size overlap : ℕ)
    (h : content.all isSpaceChar = true) :
    chunk_pipeline content chunk_size overlap = Except.error LoadErr.emptyInput := by
  simp [chunk_pipeline, load_textbook, h, Except.map]

/-- Witness for C6 at the empty text and a whitespace-only text. -/
theorem chunk_pipeline_empty_input_witness :
    chunk_pipeline [] 800 50 = Except.error LoadErr.emptyInput ∧
    chunk_pipeline (chars " \n\t ") 800 50 = Except.error LoadErr.emptyInput :=
  ⟨chunk_pipeline_empty_input [] 800 50 (by decide),
    chunk_pipeline_empty_input (chars " \n\t ") 800 50 (by decide)⟩

structure MetaRec where
  textbook_hash : Option (List Char)
  model : Option (List Char)
deriving DecidableEq

inductive CacheFile
  | absent
  | corrupt
  | parsed (chunks : Option (List Chunk)) (embeddings : Option (List (List ℚ)))
      (metadata : Option MetaRec)
deriving DecidableEq

/-! ### Embeddings cache (`src/agent/textbook_processor.py` lines 220-287)

The cache file is modelled as `CacheFile`: `absent` (no file), `corrupt`
(undecodable JSON), or `parsed` with each required top-level key optionally
present.  `metadata.get("textbook_hash", "")` and `.get("model", "")` become
`Option.getD`. -/

/-- `TextbookProcessor.load_embeddings_cache`: returns `none` on a missing
file, undecodable JSON, a missing required key, a model-name mismatch, or a
non-empty embedding list whose FIRST vector (`embeddings[0]`) has zero
length; otherwise returns the chunks, embeddings and recorded hash. -/
def load_embeddings_cache (model_name : List Char) (file : CacheFile) :
    Option (List Chunk × List (List ℚ) × List Char) :=
  match file with
  | .absent => none
  | .corrupt => none
  | .parsed och oem ome =>
    match och, oem, ome with
    | some chks, some embeddings, some meta =>
      let textbook_hash := meta.textbook_hash.getD []
      let cached_model := meta.model.getD []
      if cached_model ≠ model_name then none
      else if embeddings ≠ [] ∧ (embeddings.headD []).length = 0 then none
      else some (chks, embeddings, textbook_hash)
    | _, _, _ => none

/-- `TextbookProcessor.save_embeddings_cache`: writes all three top-level
keys, recording the processor model name and textbook hash. -/
def save_embeddings_cache (model_name : List Char) (chks : List Chunk)
    (embeddings : List (List ℚ)) (textbook_hash : List Char) : CacheFile :=
  CacheFile.parsed (some chks) (some embeddings)
    (some ⟨some textbook_hash, some model_name⟩)

/-- The amended cache-miss condition (the claim, with "any recorded vector
has zero length" narrowed to the first vector, which is all the code
checks). -/
def cacheMissCondition (model_name : List Char) : CacheFile → Bool
  | .absent => true
  | .corrupt => true
  | .parsed none _ _ => true
  | .parsed _ none _ => true
  | .parsed _ _ none => true
  | .parsed (some _) (some embeddings) (some meta) =>
    decide (meta.model.getD [] ≠ model_name) ||
      (decide (embeddings ≠ []) && decide ((embeddings.headD []).length = 0))

/-- C7 (amended): `load_embeddings_cache` returns `none` exactly when the
file is absent, corrupt, missing a required key, recorded for a different
model, or has a non-empty embedding list whose first vector is empty.  The
condition never consults the recorded textbook hash. -/
theorem load_embeddings_cache_none_iff (model_name : List Char) (file : CacheFile) :
    load_embeddings_cache model_name file = none ↔
      cacheMissCondition model_name file = true := by
  cases file with
  | absent => simp [load_embeddings_cache, cacheMissCondition]
  | corrupt => simp [load_embeddings_cache, cacheMissCondition]
  | parsed och oem ome =>
    cases och with
    | none => simp [load_embeddings_cache, cacheMissCondition]
    | some chks =>
      cases oem with
      | none => simp [load_embeddings_cache, cacheMissCondition]
      | some embeddings =>
        cases ome with
        | none => simp [load_embeddings_cache, cacheMissCondition]
        | some meta =>
          simp only [load_embeddings_cache, cacheMissCondition]
          by_cases hm : meta.model.getD [] ≠ model_name
          · simp [hm]
          · by_cases he : embeddings ≠ [] ∧ (embeddings.headD []).length = 0
            · simp [hm, he]
            · simp [hm, he]

/-- C7 counterexample: a structurally valid cache whose SECOND embedding
vector has zero length still loads successfully (`some`), although the
claim requires a miss whenever any recorded vector has zero length. -/
theorem load_embeddings_cache_counterexample :
    load_embeddings_cache (chars "m")
        (CacheFile.parsed (some []) (some [[(1 : ℚ)], []])
          (some ⟨some (chars "h"), some (chars "m")⟩)) =
      some ([], [[(1 : ℚ)], []], chars "h") ∧
    ([] : List ℚ) ∈ [[(1 : ℚ)], []] := by
  exact ⟨rfl, by simp⟩

/-- C8 (amended): save-then-load under the same model name returns exactly
the saved chunks, embeddings and textbook hash, provided the embedding list
is empty or its first vector is non-empty. -/
theorem save_load_roundtrip (model_name : List Char) (chks : List Chunk)
    (embeddings : List (List ℚ)) (textbook_hash : List Char)
    (h : embeddings = [] ∨ (embeddings.headD []).length ≠ 0) :
    load_embeddings_cache model_name
        (save_embeddings_cache model_name chks embeddings textbook_hash) =
      some (chks, embeddings, textbook_hash) := by
  rcases h with h | h
  · simp [save_embeddings_cache, load_embeddings_cache, h]
  · simp only [save_embeddings_cache, load_embeddings_cache]
    rw [if_neg (by simp), if_neg (fun hc => h hc.2)]
    rfl

/-- C8 counterexample: saving the single zero-length embedding `[[]]` and
loading it back yields `none`, not the saved data, because load rejects a
zero-length first vector. -/
theorem save_load_roundtrip_counterexample :
    load_embeddings_cache (chars "m")
        (save_embeddings_cache (chars "m") [] [[]] (chars "h")) = none ∧
    load_embeddings_cache (chars "m")
        (save_embeddings_cache (chars "m") [] [[]] (chars "h")) ≠
      some ([], [[]], chars "h") := by
  constructor
  · rfl
  · intro hcontra
    simp [save_embeddings_cache, load_embeddings_cache] at hcontra

/-- Witness for C8 (amended) at a one-vector cache. -/
theorem save_load_roundtrip_witness :
    load_embeddings_cache (chars "m")
        (save_embeddings_cache (chars "m") [] [[(1 : ℚ)]] (chars "h")) =
      some ([], [[(1 : ℚ)]], chars "h") :=
  save_load_roundtrip (chars "m") [] [[(1 : ℚ)]] (chars "h") (Or.inr (by simp))

/-- The `ValueError` payload of `Retriever.__init__`
(`src/agent/retriever.py` lines 23-24). -/
inductive InitErr
  | lengthMismatch (num_chunks num_embeddings : ℕ)
deriving DecidableEq

/-- The state stored by a successfully constructed `Retriever`. -/
structure Retriever where
  chunks : List Chunk
  embeddings : List (List ℚ)

/-- `Retriever.__init__`: fails when the chunk and embedding sequences have
different lengths, otherwise stores both. -/
def retriever_init (chks : List Chunk) (embeddings : List (List ℚ)) :
    Except InitErr Retriever :=
  if chks.length ≠ embeddings.length then
    Except.error (InitErr.lengthMismatch chks.length embeddings.length)
  else Except.ok ⟨chks, embeddings⟩

/-- C9: constructing a `Retriever` with different-length chunk and embedding
lists fails with the length error; any successful construction stores the
two sequences unchanged, so they are equal-length and index-aligned. -/
theorem retriever_init_alignment (chks : List Chunk) (embeddings : List (List ℚ)) :
    (chks.length ≠ embeddings.length →
      retriever_init chks embeddings =
        Except.error (InitErr.lengthMismatch chks.length embeddings.length)) ∧
    (∀ r, retriever_init chks embeddings = Except.ok r →
      r.chunks = chks ∧ r.embeddings = embeddings ∧
        r.chunks.length = r.embeddings.length) := by
  constructor
  · intro h
    simp [retriever_init, h]
  · intro r hr
    by_cases h : chks.length = embeddings.length
    · rw [retriever_init, if_neg (by omega)] at hr
      cases hr
      exact ⟨rfl, rfl, h⟩
    · rw [retriever_init, if_pos h] at hr
      cases hr

/-- Witness for C9: a mismatched construction fails, an aligned one
satisfies the invariant. -/
theorem retriever_init_alignment_witness :
    retriever_init [] [[(1 : ℚ)]] = Except.error (InitErr.lengthMismatch 0 1) ∧
    (Retriever.mk [] []).chunks.length = (Retriever.mk [] []).embeddings.length :=
  ⟨(retriever_init_alignment [] [[(1 : ℚ)]]).1 (by decide),
    ((retriever_init_alignment [] []).2 ⟨[], []⟩ rfl).2.2⟩
